import Mathlib

/-!
Verification development for the RPFM core codec and table optimizer.

This file gives a shallow embedding, in Lean, of the byte-level decoder
(`rpfm_common/src/decoder.rs`), the PFH4 container reader and writer
(`rpfm_lib/src/files/pack/pack_versions/pfh4.rs`) and the table optimizer
(`rpfm_extensions/src/optimizer/mod.rs`), together with theorems settling
the frozen claims about them.

Modelling conventions:
* Machine bytes are naturals; byte sequences are `List Nat`.  Multi-byte
  integers use explicit little-endian arithmetic; 32-bit wraparound is an
  explicit `% 2^32`.
* Fallible Rust code returning `Result<T>` becomes `Except E T`; a Rust
  `&mut usize` cursor becomes an explicit extra `Nat` in and out.
* A Rust panic (out-of-bounds slice indexing) is a distinguished result
  constructor, kept apart from typed errors.
* External library calls (`byteorder`, `rayon`) and repository code that is
  not part of the analysed sources (the `ReadBytes`/`WriteBytes` streams,
  the encryption black box, the external Table layer) are modelled from
  their documented contracts or from the specification; each such
  definition carries a comment saying so.
-/

namespace Rpfm

/-- Byte sequences: each element is one byte of the source buffer.  Real
data has elements `< 256`; none of the embedded decoders depend on that
bound, so it is not imposed. -/
abbrev ByteSeq := List Nat

/-- Errors of the common decoding layer (`rpfm_common`'s `RCommonError`,
restricted to the constructors the decoder uses). -/
inductive RCommonError where
  | DecodingNotMoreBytesToDecode
  | DecodingNoBytesLeftError
  | DecodingNotEnoughBytesToDecodeForType (ty : String) (needed : Nat) (shortfall : Option Nat)
  | DecodingBoolError (value : Nat)
  | DecodingStringSizeError (ty : String) (pos : Option Nat) (size : Nat)
  | DecodingOptionalStringBoolError (ty : String)
  | DecodeUTF16Error
  deriving DecidableEq

/-- Rust `offset.checked_sub(len)`: `some (offset - len)` when `len ≤ offset`,
`none` otherwise. -/
def checkedSub (a b : Nat) : Option Nat := if b ≤ a then some (a - b) else none

/-- Contract of `byteorder::LittleEndian::read_u16`: the little-endian value
of the first two bytes of the slice (callers guarantee at least 2 bytes). -/
def readU16LE (b : ByteSeq) : Nat := b.getD 0 0 + 256 * b.getD 1 0

/-- Contract of `byteorder::LittleEndian::read_u32`: the little-endian value
of the first four bytes of the slice (callers guarantee at least 4 bytes). -/
def readU32LE (b : ByteSeq) : Nat :=
  b.getD 0 0 + 256 * b.getD 1 0 + 65536 * b.getD 2 0 + 16777216 * b.getD 3 0

/-- Contract of `byteorder::LittleEndian::read_u64` (first eight bytes). -/
def readU64LE (b : ByteSeq) : Nat :=
  readU32LE b + 4294967296 * readU32LE (b.drop 4)

/-- Two's-complement reinterpretation of a `w`-bit unsigned value as a signed
integer, the contract of `byteorder`'s signed reads. -/
def toSigned (w n : Nat) : Int :=
  if n < 2 ^ (w - 1) then (n : Int) else (n : Int) - 2 ^ w

/-- Little-endian interpretation of the four bytes `b[o..o+4]`, stated
directly on positions, as the specification phrases it. -/
def leInterp4 (b : ByteSeq) (o : Nat) : Nat :=
  b.getD o 0 + 256 * b.getD (o + 1) 0 + 65536 * b.getD (o + 2) 0 + 16777216 * b.getD (o + 3) 0

/-- Embedding of `decode_integer_u8`: `self.get(offset)` or
`DecodingNoBytesLeftError`. -/
def decode_integer_u8 (b : ByteSeq) (offset : Nat) : Except RCommonError Nat :=
  match b.get? offset with
  | some v => .ok v
  | none => .error .DecodingNoBytesLeftError

/-- Embedding of `decode_bool`: one byte, `0 → false`, `1 → true`, anything
else is `DecodingBoolError`. -/
def decode_bool (b : ByteSeq) (offset : Nat) : Except RCommonError Bool :=
  match decode_integer_u8 b offset with
  | .ok 0 => .ok false
  | .ok 1 => .ok true
  | .ok v => .error (.DecodingBoolError v)
  | .error e => .error e

/-- Embedding of `decode_integer_u32`: bounds check `len >= offset + 4`,
then the little-endian read of `self[offset..]`. -/
def decode_integer_u32 (b : ByteSeq) (offset : Nat) : Except RCommonError Nat :=
  if b.length ≥ offset + 4 then .ok (readU32LE (b.drop offset))
  else .error (.DecodingNotEnoughBytesToDecodeForType "u32" 4 (checkedSub offset b.length))

/-- Embedding of `decode_integer_i16`. -/
def decode_integer_i16 (b : ByteSeq) (offset : Nat) : Except RCommonError Int :=
  if b.length ≥ offset + 2 then .ok (toSigned 16 (readU16LE (b.drop offset)))
  else .error (.DecodingNotEnoughBytesToDecodeForType "i16" 2 (checkedSub offset b.length))

/-- Embedding of `decode_integer_i32`. -/
def decode_integer_i32 (b : ByteSeq) (offset : Nat) : Except RCommonError Int :=
  if b.length ≥ offset + 4 then .ok (toSigned 32 (readU32LE (b.drop offset)))
  else .error (.DecodingNotEnoughBytesToDecodeForType "i32" 4 (checkedSub offset b.length))

/-- Embedding of `decode_integer_i64`. -/
def decode_integer_i64 (b : ByteSeq) (offset : Nat) : Except RCommonError Int :=
  if b.length ≥ offset + 8 then .ok (toSigned 64 (readU64LE (b.drop offset)))
  else .error (.DecodingNotEnoughBytesToDecodeForType "i64" 8 (checkedSub offset b.length))

/-- Outcome of a string decode that can also die with an out-of-bounds
slice panic, which is distinct from returning a typed error. -/
inductive StrResult where
  | ok (units : List Nat)
  | err (e : RCommonError)
  | oobPanic
  deriving DecidableEq

/-- Contract of `slice::chunks_exact(2)` composed with `u16::from_le_bytes`:
pair up bytes little-endian, discarding a trailing odd byte. -/
def u16ChunksLE : ByteSeq → List Nat
  | b0 :: b1 :: rest => (b0 + 256 * b1) :: u16ChunksLE rest
  | _ => []

/-- Contract of `String::from_utf16` validity: it fails exactly on an
unpaired surrogate code unit. -/
def utf16Valid : List Nat → Bool
  | [] => true
  | u :: rest =>
    if 0xD800 ≤ u ∧ u ≤ 0xDBFF then
      match rest with
      | v :: rest2 => if 0xDC00 ≤ v ∧ v ≤ 0xDFFF then utf16Valid rest2 else false
      | [] => false
    else if 0xDC00 ≤ u ∧ u ≤ 0xDFFF then false
    else utf16Valid rest

/-- Embedding of `decode_string_u16`.  The source guard is
`if self.len() < offset + size && size % 2 == 0 { return Err(...) }`;
after it, the code slices `self[offset..offset + size]`, which panics when
`offset + size > len`.  The decoded string is represented by its UTF-16
code-unit sequence. -/
def decode_string_u16 (b : ByteSeq) (offset size : Nat) : StrResult :=
  if b.length < offset + size ∧ size % 2 = 0 then
    .err (.DecodingNotEnoughBytesToDecodeForType "UTF-16 String" size (checkedSub offset b.length))
  else if offset + size ≤ b.length then
    let units := u16ChunksLE ((b.drop offset).take size)
    if utf16Valid units then .ok units else .err .DecodeUTF16Error
  else .oobPanic

/-- Uppercase hexadecimal digit for a value `0..15`. -/
def hexDigitChar (n : Nat) : Char :=
  if n < 10 then Char.ofNat (48 + n) else Char.ofNat (55 + n)

/-- Hexadecimal digits of `n`, least significant first, with enough fuel. -/
def hexDigitsRev (fuel n : Nat) : List Char :=
  match fuel with
  | 0 => []
  | f + 1 => if n = 0 then [] else hexDigitChar (n % 16) :: hexDigitsRev f (n / 16)

/-- Contract of Rust `format!("{:06X?}", v)` on an unsigned integer: the
uppercase hexadecimal digits of `v`, left-padded with zeros to a minimum
width of 6.  The width is a minimum only; values above `0xFFFFFF` print
more than 6 digits and are never truncated. -/
def formatHex06 (n : Nat) : String :=
  let ds := (hexDigitsRev 16 n).reverse
  let ds := if ds = [] then ['0'] else ds
  String.mk (List.replicate (6 - ds.length) '0' ++ ds)

/-- Embedding of `decode_string_colour_rgb`: bounds check for 4 bytes, then
format the full little-endian `u32` with `{:06X?}`.  Note the code formats
the whole 32-bit value; nothing discards the high byte. -/
def decode_string_colour_rgb (b : ByteSeq) (offset : Nat) : Except RCommonError String :=
  if b.length < offset + 4 then
    .error (.DecodingNotEnoughBytesToDecodeForType "RGB Colour" 4 (checkedSub offset b.length))
  else .ok (formatHex06 (readU32LE (b.drop offset)))

/-- C8: for every byte slice `b` and offset `o`, `decode_integer_u32 b o`
succeeds if and only if `o + 4 ≤ len b`, and on success the value is the
little-endian interpretation of the 4 bytes `b[o..o+4]`. -/
theorem c8_decode_integer_u32_ok_iff (b : ByteSeq) (o : Nat) :
    ((decode_integer_u32 b o).isOk ↔ o + 4 ≤ b.length) ∧
    (o + 4 ≤ b.length → decode_integer_u32 b o = .ok (leInterp4 b o)) := by
  constructor
  · unfold decode_integer_u32
    by_cases h : b.length ≥ o + 4 <;> simp [h, Except.isOk, Except.toBool]
  · intro h
    unfold decode_integer_u32
    rw [if_pos h]
    have hd : ∀ i, (b.drop o).getD i 0 = b.getD (o + i) 0 := by
      intro i
      simp [List.getD_eq_getElem?_getD, List.getElem?_drop]
    unfold readU32LE leInterp4
    rw [hd 0, hd 1, hd 2, hd 3, Nat.add_zero]

/-- Witness for C8 at a concrete input. -/
theorem c8_decode_integer_u32_ok_iff_witness :
    decode_integer_u32 [1, 2, 3, 4] 0 = .ok (leInterp4 [1, 2, 3, 4] 0) :=
  (c8_decode_integer_u32_ok_iff [1, 2, 3, 4] 0).2 (by decide)

/-- C1 (code bug): `decode_string_u16` was claimed to return a typed error
whenever `o + s > len b`, for every `s` including odd `s`.  In the code the
bounds guard also requires `size % 2 == 0`, so for every odd size whose end
lies past the buffer the guard is skipped and the slice
`self[offset..offset + size]` panics out of bounds instead of returning a
typed error, contradicting the claim and the module's own documentation. -/
theorem c1_decode_string_u16_odd_size_panics (b : ByteSeq) (o s : Nat)
    (hlen : b.length < o + s) (hodd : s % 2 = 1) :
    decode_string_u16 b o s = .oobPanic := by
  unfold decode_string_u16
  rw [if_neg (by omega), if_neg (by omega)]

/-- Witness for C1 at the concrete failing input: the empty buffer with
offset 0 and size 1. -/
theorem c1_decode_string_u16_odd_size_panics_witness :
    decode_string_u16 [] 0 1 = .oobPanic :=
  c1_decode_string_u16_odd_size_panics [] 0 1 (by decide) (by decide)

/-- C6 (code bug): the claim says the colour string has exactly 6 uppercase
hexadecimal digits derived from the low 3 bytes, with the high byte
discarded.  The code formats the whole 32-bit value with a minimum width of
6, so when the high byte is nonzero (here `b = [0,0,0,1]`, value
`0x01000000`) it returns the 7-digit string "1000000": the high byte is not
discarded and the result is not 6 digits, contradicting the claim and the
function's own comment about removing the high-byte digits. -/
theorem c6_colour_rgb_high_byte_not_discarded :
    decode_string_colour_rgb [0, 0, 0, 1] 0 = .ok "1000000" ∧
    "1000000".length = 7 ∧ "1000000" ≠ "000000" := by
  refine ⟨?_, by decide, by decide⟩
  rfl

/-- Embedding of the loop body of `decode_packedfile_integer_cauleb128` on
the bytes from the cursor onwards.  The accumulator is a `u32`:
`size = (size << 7) | (byte & 0x7f)` with the shift wrapping modulo `2^32`.
The returned `Nat` is how far the cursor advanced, including the advances
made before a failing `get` (the source increments `*index` inside the
loop before fetching the next byte). -/
def caulebAux : ByteSeq → Nat → (Except RCommonError Nat) × Nat
  | [], _ => (.error .DecodingNotMoreBytesToDecode, 0)
  | byte :: rest, size =>
    if byte &&& 0x80 ≠ 0 then
      let r := caulebAux rest (((size <<< 7) % 4294967296) ||| (byte &&& 0x7f))
      (r.1, r.2 + 1)
    else
      (.ok (((size <<< 7) % 4294967296) ||| (byte &&& 0x7f)), 1)

/-- Embedding of `decode_packedfile_integer_cauleb128`: reads at the cursor
`index` and returns the result together with the final cursor value. -/
def decode_packedfile_integer_cauleb128 (b : ByteSeq) (index : Nat) :
    (Except RCommonError Nat) × Nat :=
  let r := caulebAux (b.drop index) 0
  (r.1, index + r.2)

/-- The unbounded accumulation the encoding denotes: most-significant group
first, each byte contributing its low 7 bits, with no 32-bit truncation. -/
def caulebPayload : ByteSeq → Nat → Nat
  | [], acc => acc
  | byte :: rest, acc => caulebPayload rest (acc * 128 + (byte &&& 0x7f))

/-- Bitwise or of a multiple of 128 with a value below 128 is plain
addition: the two operands occupy disjoint bit ranges. -/
theorem lor_mul128_add (m r : Nat) (h : r < 128) : (128 * m) ||| r = 128 * m + r := by
  apply Nat.eq_of_testBit_eq
  intro j
  have h128 : (128 : Nat) = 2 ^ 7 := by norm_num
  rw [Nat.testBit_lor, h128, Nat.testBit_mul_pow_two_add m (h128 ▸ h) j,
    Nat.testBit_mul_pow_two]
  by_cases hj : j < 7
  · simp [hj, Nat.not_le_of_lt hj]
  · have hr : r.testBit j = false :=
      Nat.testBit_lt_two_pow (Nat.lt_of_lt_of_le (h128 ▸ h)
        (Nat.pow_le_pow_right (by norm_num) (Nat.le_of_not_lt hj)))
    simp [hj, Nat.le_of_not_lt hj, hr]

/-- One step of the truncated accumulator agrees with the untruncated
accumulation modulo `2^32`. -/
theorem cauleb_step_mod (size acc byte : Nat) (hsz : size = acc % 4294967296) :
    ((size <<< 7) % 4294967296) ||| (byte &&& 0x7f) =
      (acc * 128 + (byte &&& 0x7f)) % 4294967296 := by
  have hr : byte &&& 0x7f < 128 := Nat.lt_of_le_of_lt Nat.and_le_right (by norm_num)
  have hshift : (size <<< 7) % 4294967296 = 128 * ((size * 128 / 128) % 33554432) := by
    rw [Nat.shiftLeft_eq]
    norm_num
    rw [show (4294967296 : Nat) = 128 * 33554432 by norm_num,
      show size * 128 = 128 * size by ring, Nat.mul_mod_mul_left]
  rw [hshift, lor_mul128_add _ _ hr]
  rw [Nat.mul_div_cancel _ (by norm_num : (0:Nat) < 128)]
  subst hsz
  have h1 : 128 * (acc % 4294967296 % 33554432) = acc * 128 % 4294967296 := by
    rw [Nat.mod_mod_of_dvd _ (by norm_num : (33554432 : Nat) ∣ 4294967296),
      show acc * 128 = 128 * acc by ring,
      show (4294967296 : Nat) = 128 * 33554432 by norm_num, Nat.mul_mod_mul_left]
  rw [h1]
  have h2 : acc * 128 % 4294967296 + (byte &&& 0x7f) < 4294967296 := by
    have : acc * 128 % 4294967296 < 4294967296 := Nat.mod_lt _ (by norm_num)
    have hmul : (acc * 128 % 4294967296) % 128 = 0 := by
      rw [show (4294967296 : Nat) = 128 * 33554432 by norm_num,
        show acc * 128 = 128 * acc by ring, Nat.mul_mod_mul_left,
        Nat.mul_mod_right]
    omega
  omega

/-- Core lemma for the cauleb128 decoder: on a well-formed encoding
(`cont` bytes all with the continuation bit set, then one terminator byte
with it clear, then anything), the decoder succeeds with the untruncated
accumulation reduced modulo `2^32` and consumes exactly the encoding. -/
theorem caulebAux_valid (cont : ByteSeq) (last : Nat) (tail : ByteSeq)
    (acc size : Nat) (hsz : size = acc % 4294967296)
    (hcont : ∀ x ∈ cont, x &&& 0x80 ≠ 0) (hlast : last &&& 0x80 = 0) :
    caulebAux (cont ++ last :: tail) size =
      (.ok (caulebPayload (cont ++ [last]) acc % 4294967296), cont.length + 1) := by
  induction cont generalizing acc size with
  | nil =>
    simp only [List.nil_append, caulebAux, hlast, ne_eq, not_true_eq_false, if_false,
      caulebPayload, List.length_nil]
    rw [cauleb_step_mod size acc last hsz]
  | cons byte rest ih =>
    have hbyte : byte &&& 0x80 ≠ 0 := hcont byte (List.mem_cons_self _ _)
    simp only [List.cons_append, List.append_eq, caulebAux, hbyte, ne_eq, not_false_eq_true,
      if_true, caulebPayload, List.length_cons]
    rw [ih (acc * 128 + (byte &&& 0x7f)) _ (cauleb_step_mod size acc byte hsz)
      (fun x hx => hcont x (List.mem_cons_of_mem _ hx))]

/-- Failure lemma: if every byte from the cursor onwards has the
continuation bit set (including the case of no bytes at all), the decoder
fails with `DecodingNotMoreBytesToDecode`. -/
theorem caulebAux_exhausted (l : ByteSeq) (size : Nat)
    (h : ∀ x ∈ l, x &&& 0x80 ≠ 0) :
    (caulebAux l size).1 = .error .DecodingNotMoreBytesToDecode := by
  induction l generalizing size with
  | nil => rfl
  | cons byte rest ih =>
    have hbyte : byte &&& 0x80 ≠ 0 := h byte (List.mem_cons_self _ _)
    simp only [caulebAux, hbyte, ne_eq, not_false_eq_true, if_true]
    exact ih _ (fun x hx => h x (List.mem_cons_of_mem _ hx))

/-- C7: the cauleb128 decoder accumulates most-significant group first:
`[0x81, 0x00]` decodes to 128 (advancing the cursor by 2), `[0x00]`
decodes to 0, and if the stream runs out while the continuation bit of the
last read byte is set, it fails with the not-more-bytes error. -/
theorem c7_cauleb128_msb_first :
    decode_packedfile_integer_cauleb128 [0x81, 0x00] 0 = (.ok 128, 2) ∧
    decode_packedfile_integer_cauleb128 [0x00] 0 = (.ok 0, 1) ∧
    (∀ b i, (∀ x ∈ b.drop i, x &&& 0x80 ≠ 0) →
      (decode_packedfile_integer_cauleb128 b i).1 = .error .DecodingNotMoreBytesToDecode) := by
  refine ⟨rfl, rfl, ?_⟩
  intro b i h
  exact caulebAux_exhausted (b.drop i) 0 h

/-- Witness for C7: decoding `[0x81]`, whose continuation bit demands a
byte that is not there, fails with the not-more-bytes error. -/
theorem c7_cauleb128_msb_first_witness :
    (decode_packedfile_integer_cauleb128 [0x81] 0).1 = .error .DecodingNotMoreBytesToDecode :=
  c7_cauleb128_msb_first.2.2 [0x81] 0 (by decide)

/-- C10: on any well-formed encoding, however long, the cauleb128 decoder
reports no error: it returns the accumulated value modulo `2^32`, silently
discarding bits shifted out of the 32-bit accumulator, and advances the
cursor past the whole encoding. -/
theorem c10_cauleb128_truncates_mod_2_32 (b : ByteSeq) (i : Nat)
    (cont : ByteSeq) (last : Nat) (tail : ByteSeq)
    (hsplit : b.drop i = cont ++ last :: tail)
    (hcont : ∀ x ∈ cont, x &&& 0x80 ≠ 0) (hlast : last &&& 0x80 = 0) :
    decode_packedfile_integer_cauleb128 b i =
      (.ok (caulebPayload (cont ++ [last]) 0 % 4294967296), i + (cont.length + 1)) := by
  unfold decode_packedfile_integer_cauleb128
  rw [hsplit, caulebAux_valid cont last tail 0 0 rfl hcont hlast]

/-- Witness for C10: six bytes encode 42 payload bits (value `2^42 - 1`);
the decoder returns `2^32 - 1` and advances the cursor by 6. -/
theorem c10_cauleb128_truncates_mod_2_32_witness :
    decode_packedfile_integer_cauleb128 [255, 255, 255, 255, 255, 127] 0 = (.ok 4294967295, 6) := by
  have h := c10_cauleb128_truncates_mod_2_32 [255, 255, 255, 255, 255, 127] 0
    [255, 255, 255, 255, 255] 127 [] rfl (by decide) (by decide)
  rwa [show caulebPayload ([255, 255, 255, 255, 255] ++ [127]) 0 % 4294967296 = 4294967295
    from by decide, show (0 : Nat) + (List.length [255, 255, 255, 255, 255] + 1) = 6 from by decide] at h

/-- Embedding of `decode_packedfile_optional_integer_i16`.  Note what the
source does: it decodes a boolean at `offset`, advancing the cursor by one
when that succeeds, then ignores the boolean and decodes an `i16` at the
same `offset`, advancing by two more when that succeeds, and returns the
`i16` result. -/
def decode_packedfile_optional_integer_i16 (b : ByteSeq) (offset index : Nat) :
    (Except RCommonError Int) × Nat :=
  let index1 := if (decode_bool b offset).isOk then index + 1 else index
  let result := decode_integer_i16 b offset
  let index2 := if result.isOk then index1 + 2 else index1
  (result, index2)

/-- Embedding of `decode_packedfile_optional_integer_i32` (same shape). -/
def decode_packedfile_optional_integer_i32 (b : ByteSeq) (offset index : Nat) :
    (Except RCommonError Int) × Nat :=
  let index1 := if (decode_bool b offset).isOk then index + 1 else index
  let result := decode_integer_i32 b offset
  let index2 := if result.isOk then index1 + 4 else index1
  (result, index2)

/-- Embedding of `decode_packedfile_optional_integer_i64` (same shape). -/
def decode_packedfile_optional_integer_i64 (b : ByteSeq) (offset index : Nat) :
    (Except RCommonError Int) × Nat :=
  let index1 := if (decode_bool b offset).isOk then index + 1 else index
  let result := decode_integer_i64 b offset
  let index2 := if result.isOk then index1 + 8 else index1
  (result, index2)

/-- C5 (code bug): the optional-integer cursor variants violate the cursor
contract.  On the one-byte buffer `[0]` the boolean decode succeeds and
advances the cursor to 1, then the `i16` decode fails, and the function
returns an error with the cursor left at 1 instead of 0 — a failure that
moves the cursor, though optional integers are not among the documented
rollback exceptions.  On the two-byte buffer `[1, 2]` it succeeds with the
value read at `offset` itself (overlapping the marker byte, 513 = 0x0201)
and advances the cursor by 3 although only bytes 0 and 1 were consumed,
moving the cursor past the end of the buffer. -/
theorem c5_optional_integer_cursor_contract_broken :
    decode_packedfile_optional_integer_i16 [0] 0 0 =
      (.error (.DecodingNotEnoughBytesToDecodeForType "i16" 2 none), 1) ∧
    decode_packedfile_optional_integer_i16 [1, 2] 0 0 = (.ok 513, 3) := by
  constructor <;> rfl

/-- Errors of the library layer (`rpfm_lib`'s `RLibError`, restricted to
the constructors the PFH4 codec uses, plus one constructor standing for
any stream-read failure of the `ReadBytes` layer). -/
inductive RLibError where
  | PackFileHeaderNotComplete
  | PackFileIndexesNotComplete
  | NotEnoughBytesInStream
  | DecryptFailed
  | EncodeFailed
  deriving DecidableEq

/-- A sequential byte stream with a position, modelling the `ReadBytes`
reader that `read_pfh4` consumes. -/
structure Reader where
  buf : ByteSeq
  pos : Nat
  deriving DecidableEq

/-- Modelled from the spec: `ReadBytes::read_u32` reads a fixed-width
little-endian `u32` at the stream position and fails with a typed error
when fewer than 4 bytes remain (the `ReadBytes` implementation is outside
the analysed sources). -/
def Reader.read_u32 (r : Reader) : Except RLibError (Nat × Reader) :=
  if r.pos + 4 ≤ r.buf.length then
    .ok (readU32LE (r.buf.drop r.pos), { r with pos := r.pos + 4 })
  else .error .NotEnoughBytesInStream

/-- Modelled from the spec: `ReadBytes::read_slice(n, false)` reads the
next `n` bytes in one bulk read, failing when fewer remain. -/
def Reader.read_slice (r : Reader) (n : Nat) : Except RLibError (ByteSeq × Reader) :=
  if r.pos + n ≤ r.buf.length then
    .ok ((r.buf.drop r.pos).take n, { r with pos := r.pos + n })
  else .error .NotEnoughBytesInStream

/-- Modelled from the spec: `ReadBytes::read_string_u8_0terminated` scans
forward for a zero byte and returns the bytes before it, positioning the
stream after the terminator; with no terminator in the remaining stream it
fails.  Path contents are kept as raw bytes: no claim depends on the
UTF-8 view of a path. -/
def Reader.read_string_u8_0terminated (r : Reader) : Except RLibError (ByteSeq × Reader) :=
  match (r.buf.drop r.pos).findIdx? (· = 0) with
  | some k => .ok ((r.buf.drop r.pos).take k, { r with pos := r.pos + k + 1 })
  | none => .error .NotEnoughBytesInStream

/-- The decryption black box of the spec: per-entry `decrypt_u32` takes the
descending counter as its key index, and `decrypt_string` takes the size
byte.  The algorithms live outside the analysed sources, so the embedding
is parameterised over them. -/
structure DecryptOracle where
  u32 : Nat → Reader → Except RLibError (Nat × Reader)
  str : Nat → Reader → Except RLibError (ByteSeq × Reader)

/-- The PFH flag bits `read_pfh4` consults. -/
structure PFHFlags where
  hasExtendedHeader : Bool
  hasEncryptedData : Bool
  hasEncryptedIndex : Bool
  hasIndexWithTimestamps : Bool
  deriving DecidableEq

/-- Location of an `RFile`'s bytes: lazy (an offset and size into the
original stream) or resident in memory.  `RFile::new_from_container` is
outside the analysed sources; modelled from the spec, it records a lazy
handle and never materialises bytes. -/
inductive FileLocation where
  | lazy (offset size : Nat)
  | resident (data : ByteSeq)
  deriving DecidableEq

/-- One file entry produced by the PFH4 index decode. -/
structure RFileEntry where
  path : ByteSeq
  size : Nat
  timestamp : Nat
  encrypted : Bool
  location : FileLocation
  deriving DecidableEq

/-- The relevant fields of `DecodeableExtraData`. -/
structure DecodeableExtraData where
  disk_file_size : Nat
  disk_file_offset : Nat
  deriving DecidableEq

/-- Embedding of the dependency loop of `read_pfh4`: `packs_count`
zero-terminated strings read in order from the in-memory index buffer. -/
def readPfh4Deps : Nat → Reader → Except RLibError (List ByteSeq × Reader)
  | 0, r => .ok ([], r)
  | n + 1, r =>
    match r.read_string_u8_0terminated with
    | .error e => .error e
    | .ok (s, r1) =>
      match readPfh4Deps n r1 with
      | .error e => .error e
      | .ok (rest, r2) => .ok (s :: rest, r2)

/-- Embedding of the file loop of `read_pfh4`.  The source iterates
`for files_to_read in (0..files_count).rev()`, reading each entry
sequentially from the in-memory index buffer; this function takes the
counter sequence as a list (the caller passes `(range n).reverse`) and
returns each produced entry paired with the counter value used as its
decryption key index.  `data_pos` is threaded exactly as in the source:
each entry is recorded at the current `data_pos` and then
`data_pos += size`. -/
def readPfh4Files (flags : PFHFlags) (dec : DecryptOracle) :
    List Nat → Reader → Nat → Except RLibError (List (Nat × RFileEntry) × Reader × Nat)
  | [], buf, dataPos => .ok ([], buf, dataPos)
  | counter :: rest, buf, dataPos =>
    match (if flags.hasEncryptedIndex then dec.u32 counter buf else buf.read_u32) with
    | .error e => .error e
    | .ok (size, buf1) =>
      match (if flags.hasIndexWithTimestamps then
          (if flags.hasEncryptedIndex then dec.u32 counter buf1 else buf1.read_u32)
        else .ok (0, buf1)) with
      | .error e => .error e
      | .ok (timestamp, buf2) =>
        match (if flags.hasEncryptedIndex then dec.str (size % 256) buf2
          else buf2.read_string_u8_0terminated) with
        | .error e => .error e
        | .ok (path, buf3) =>
          match readPfh4Files flags dec rest buf3 (dataPos + size) with
          | .error e => .error e
          | .ok (entries, buf4, dataPos4) =>
            .ok ((counter,
              { path, size, timestamp, encrypted := flags.hasEncryptedData,
                location := .lazy dataPos size }) :: entries, buf4, dataPos4)

/-- Result of a successful `read_pfh4`.  `indexEnd` records the main
stream position right after the bulk read of the index region (a ghost
field used to state where the file-data region starts), and `dataReader`
is the state of the main stream when the function returns. -/
structure Pfh4Result where
  timestamp : Nat
  dependencies : List ByteSeq
  files : List (Nat × RFileEntry)
  finalDataPos : Nat
  indexEnd : Nat
  dataReader : Reader
  deriving DecidableEq

/-- Embedding of `read_pfh4`: header counts and sizes, flag-dependent
minimum-length checks, one bulk read of the whole index region into a
fresh in-memory buffer, the dependency loop, then the file loop over the
descending counter sequence.  All loop reads come from the in-memory
buffer; the main stream is not touched after the bulk read. -/
def read_pfh4 (flags : PFHFlags) (dec : DecryptOracle) (data : Reader)
    (extra : DecodeableExtraData) : Except RLibError Pfh4Result :=
  let data_len := extra.disk_file_size
  match data.read_u32 with
  | .error e => .error e
  | .ok (packs_count, data1) =>
    match data1.read_u32 with
    | .error e => .error e
    | .ok (packs_index_size, data2) =>
      match data2.read_u32 with
      | .error e => .error e
      | .ok (files_count, data3) =>
        match data3.read_u32 with
        | .error e => .error e
        | .ok (files_index_size, data4) =>
          match data4.read_u32 with
          | .error e => .error e
          | .ok (timestamp, data5) =>
            if (flags.hasExtendedHeader ∧ data_len < 44) ∨
                (¬flags.hasExtendedHeader ∧ data_len < 24) then
              .error .PackFileHeaderNotComplete
            else
              let extra_header_size := if flags.hasExtendedHeader then 20 else 0
              let indexes_size := extra_header_size + packs_index_size + files_index_size
              match data5.read_slice indexes_size with
              | .error e => .error e
              | .ok (buffer_data, data6) =>
                let buffer_mem : Reader := { buf := buffer_data, pos := 0 }
                let data_pos := data6.pos - extra.disk_file_offset
                if data_len < data_pos then .error .PackFileIndexesNotComplete
                else
                  match readPfh4Deps packs_count buffer_mem with
                  | .error e => .error e
                  | .ok (deps, buffer_mem1) =>
                    match readPfh4Files flags dec ((List.range files_count).reverse)
                        buffer_mem1 data_pos with
                    | .error e => .error e
                    | .ok (files, _, finalPos) =>
                      .ok { timestamp, dependencies := deps, files,
                            finalDataPos := finalPos, indexEnd := data6.pos,
                            dataReader := data6 }

/-- Cumulative lazy layout: starting at `start`, each entry in turn is a
lazy handle at the running offset with its own size, and the next offset
is the previous offset plus the previous size. -/
def lazyOffsets (start : Nat) : List (Nat × RFileEntry) → Prop
  | [] => True
  | (_, e) :: rest => e.location = .lazy start e.size ∧ lazyOffsets (start + e.size) rest

/-- A successful `read_u32` does not change the underlying buffer. -/
theorem Reader.read_u32_buf {r r' : Reader} {v : Nat} (h : r.read_u32 = .ok (v, r')) :
    r'.buf = r.buf := by
  unfold Reader.read_u32 at h
  split at h
  · cases h; rfl
  · cases h

/-- A successful `read_slice` does not change the underlying buffer. -/
theorem Reader.read_slice_buf {r r' : Reader} {n : Nat} {bs : ByteSeq}
    (h : r.read_slice n = .ok (bs, r')) : r'.buf = r.buf := by
  unfold Reader.read_slice at h
  split at h
  · cases h; rfl
  · cases h

/-- The file loop returns one entry per counter, in counter-list order,
with the cumulative lazy layout starting at the initial `data_pos`. -/
theorem readPfh4Files_spec (flags : PFHFlags) (dec : DecryptOracle) :
    ∀ (counters : List Nat) (buf : Reader) (dataPos : Nat) out,
      readPfh4Files flags dec counters buf dataPos = .ok out →
      out.1.map Prod.fst = counters ∧ lazyOffsets dataPos out.1 := by
  intro counters
  induction counters with
  | nil =>
    intro buf dataPos out h
    cases h
    exact ⟨rfl, trivial⟩
  | cons counter rest ih =>
    intro buf dataPos out h
    unfold readPfh4Files at h
    cases h1 : (if flags.hasEncryptedIndex then dec.u32 counter buf else buf.read_u32) with
    | error e => rw [h1] at h; cases h
    | ok v1 =>
      rw [h1] at h
      obtain ⟨size, buf1⟩ := v1
      simp only [] at h
      cases h2 : (if flags.hasIndexWithTimestamps then
          (if flags.hasEncryptedIndex then dec.u32 counter buf1 else buf1.read_u32)
        else .ok (0, buf1)) with
      | error e => rw [h2] at h; cases h
      | ok v2 =>
        rw [h2] at h
        obtain ⟨timestamp, buf2⟩ := v2
        simp only [] at h
        cases h3 : (if flags.hasEncryptedIndex then dec.str (size % 256) buf2
            else buf2.read_string_u8_0terminated) with
        | error e => rw [h3] at h; cases h
        | ok v3 =>
          rw [h3] at h
          obtain ⟨path, buf3⟩ := v3
          simp only [] at h
          cases h4 : readPfh4Files flags dec rest buf3 (dataPos + size) with
          | error e => rw [h4] at h; cases h
          | ok v4 =>
            rw [h4] at h
            obtain ⟨entries, buf4, dataPos4⟩ := v4
            simp only [] at h
            cases h
            obtain ⟨hmap, hoff⟩ := ih buf3 (dataPos + size) (entries, buf4, dataPos4) h4
            exact ⟨by simpa using hmap, ⟨rfl, hoff⟩⟩

/-- C2: whenever PFH4 decode succeeds, the file index entries were
processed with a descending per-entry counter as the decryption key index
(the i-th entry read uses counter `n - 1 - i`), every decoded file is a
lazy handle whose byte range starts at a cumulative offset into the
original stream beginning just after the index region (each subsequent
offset is the previous offset plus the previous size), and no file data
bytes were read: the main stream is exactly at the end of the index region
when decode returns. -/
theorem c2_read_pfh4_reverse_lazy_cumulative (flags : PFHFlags) (dec : DecryptOracle)
    (data : Reader) (extra : DecodeableExtraData) (res : Pfh4Result)
    (h : read_pfh4 flags dec data extra = .ok res) :
    res.files.map Prod.fst = (List.range res.files.length).reverse ∧
    lazyOffsets (res.indexEnd - extra.disk_file_offset) res.files ∧
    res.dataReader.pos = res.indexEnd ∧
    res.dataReader.buf = data.buf := by
  unfold read_pfh4 at h
  cases hr1 : data.read_u32 with
  | error e => rw [hr1] at h; cases h
  | ok v1 =>
    rw [hr1] at h
    obtain ⟨packs_count, data1⟩ := v1
    simp only [] at h
    cases hr2 : data1.read_u32 with
    | error e => rw [hr2] at h; cases h
    | ok v2 =>
      rw [hr2] at h
      obtain ⟨packs_index_size, data2⟩ := v2
      simp only [] at h
      cases hr3 : data2.read_u32 with
      | error e => rw [hr3] at h; cases h
      | ok v3 =>
        rw [hr3] at h
        obtain ⟨files_count, data3⟩ := v3
        simp only [] at h
        cases hr4 : data3.read_u32 with
        | error e => rw [hr4] at h; cases h
        | ok v4 =>
          rw [hr4] at h
          obtain ⟨files_index_size, data4⟩ := v4
          simp only [] at h
          cases hr5 : data4.read_u32 with
          | error e => rw [hr5] at h; cases h
          | ok v5 =>
            rw [hr5] at h
            obtain ⟨timestamp, data5⟩ := v5
            simp only [] at h
            by_cases hhdr : (flags.hasExtendedHeader ∧ extra.disk_file_size < 44) ∨
                (¬flags.hasExtendedHeader ∧ extra.disk_file_size < 24)
            · rw [if_pos hhdr] at h; cases h
            · rw [if_neg hhdr] at h
              cases hslice : data5.read_slice
                  ((if flags.hasExtendedHeader then 20 else 0) + packs_index_size +
                    files_index_size) with
              | error e => rw [hslice] at h; cases h
              | ok v6 =>
                rw [hslice] at h
                obtain ⟨buffer_data, data6⟩ := v6
                simp only [] at h
                by_cases hidx : extra.disk_file_size < data6.pos - extra.disk_file_offset
                · rw [if_pos hidx] at h; cases h
                · rw [if_neg hidx] at h
                  cases hdeps : readPfh4Deps packs_count { buf := buffer_data, pos := 0 } with
                  | error e => rw [hdeps] at h; cases h
                  | ok v7 =>
                    rw [hdeps] at h
                    obtain ⟨deps, buffer_mem1⟩ := v7
                    simp only [] at h
                    cases hfiles : readPfh4Files flags dec ((List.range files_count).reverse)
                        buffer_mem1 (data6.pos - extra.disk_file_offset) with
                    | error e => rw [hfiles] at h; cases h
                    | ok v8 =>
                      rw [hfiles] at h
                      obtain ⟨files, bufEnd, finalPos⟩ := v8
                      simp only [] at h
                      cases h
                      obtain ⟨hmap, hoff⟩ := readPfh4Files_spec flags dec _ _ _ _ hfiles
                      have hlen : files.length = files_count := by
                        have := congrArg List.length hmap
                        simpa using this
                      refine ⟨?_, hoff, rfl, ?_⟩
                      · rw [hmap, hlen]
                      · rw [Reader.read_slice_buf hslice, Reader.read_u32_buf hr5,
                          Reader.read_u32_buf hr4, Reader.read_u32_buf hr3,
                          Reader.read_u32_buf hr2, Reader.read_u32_buf hr1]

/-- Concrete unencrypted PFH4 byte stream used by the C2 witness: header
counts (0 packs, 2 files, 12-byte files index), a 12-byte file index with
entries (size 5, path "a") and (size 7, path "b"), then 12 data bytes. -/
def c2PackBytes : ByteSeq :=
  [0, 0, 0, 0, 0, 0, 0, 0, 2, 0, 0, 0, 12, 0, 0, 0, 0, 0, 0, 0,
   5, 0, 0, 0, 97, 0, 7, 0, 0, 0, 98, 0,
   0, 0, 0, 0, 0, 0, 0, 0, 0, 0, 0, 0]

/-- Flags for the C2 witness: nothing encrypted, no extended header, no
index timestamps. -/
def c2Flags : PFHFlags :=
  { hasExtendedHeader := false, hasEncryptedData := false,
    hasEncryptedIndex := false, hasIndexWithTimestamps := false }

/-- Decryption oracle for the C2 witness; never invoked since the index is
not encrypted. -/
def c2Oracle : DecryptOracle :=
  { u32 := fun _ _ => .error .DecryptFailed, str := fun _ _ => .error .DecryptFailed }

/-- Extra data for the C2 witness: 44 bytes on disk, no offset. -/
def c2Extra : DecodeableExtraData := { disk_file_size := 44, disk_file_offset := 0 }

/-- The decode result of the C2 witness stream: two lazy entries at
cumulative offsets 32 and 37, read with descending counters 1 and 0. -/
def c2Result : Pfh4Result :=
  { timestamp := 0, dependencies := [],
    files := [(1, { path := [97], size := 5, timestamp := 0, encrypted := false,
                    location := .lazy 32 5 }),
              (0, { path := [98], size := 7, timestamp := 0, encrypted := false,
                    location := .lazy 37 7 })],
    finalDataPos := 44, indexEnd := 32,
    dataReader := { buf := c2PackBytes, pos := 32 } }

/-- Witness for C2 at the concrete stream above. -/
theorem c2_read_pfh4_reverse_lazy_cumulative_witness :
    c2Result.files.map Prod.fst = (List.range c2Result.files.length).reverse ∧
    lazyOffsets (c2Result.indexEnd - c2Extra.disk_file_offset) c2Result.files ∧
    c2Result.dataReader.pos = c2Result.indexEnd ∧
    c2Result.dataReader.buf = ({ buf := c2PackBytes, pos := 0 } : Reader).buf :=
  c2_read_pfh4_reverse_lazy_cumulative c2Flags c2Oracle
    { buf := c2PackBytes, pos := 0 } c2Extra c2Result rfl

/-- Stable two-way merge with explicit fuel (enough fuel is always
supplied by callers; fuel only makes the recursion structural). -/
def mergeFuel (le : α → α → Bool) : Nat → List α → List α → List α
  | 0, as, bs => as ++ bs
  | _ + 1, [], bs => bs
  | _ + 1, a :: as, [] => a :: as
  | fuel + 1, a :: as, b :: bs =>
    if le a b then a :: mergeFuel le fuel as (b :: bs)
    else b :: mergeFuel le fuel (a :: as) bs

/-- Stable merge sort with fuel, the model of the stable sorts the source
delegates to the standard library (`par_sort_by`, `sort_unstable_by_key`):
the claims settled here depend only on the output being a stable
reordering by the given comparator. -/
def mergeSortByFuel (le : α → α → Bool) : Nat → List α → List α
  | 0, l => l
  | fuel + 1, l =>
    if l.length ≤ 1 then l
    else
      mergeFuel le l.length
        (mergeSortByFuel le fuel (l.take ((l.length + 1) / 2)))
        (mergeSortByFuel le fuel (l.drop ((l.length + 1) / 2)))

/-- Sort entry point with fuel prefilled. -/
def mergeSortBy (le : α → α → Bool) (l : List α) : List α := mergeSortByFuel le l.length l

/-- Merging preserves membership, any fuel. -/
theorem mem_mergeFuel (le : α → α → Bool) :
    ∀ (fuel : Nat) (as bs : List α) (x : α),
      x ∈ mergeFuel le fuel as bs ↔ x ∈ as ∨ x ∈ bs := by
  intro fuel
  induction fuel with
  | zero => intro as bs x; simp [mergeFuel]
  | succ n ih =>
    intro as bs x
    match as, bs with
    | [], bs => simp [mergeFuel]
    | a :: as, [] => simp [mergeFuel]
    | a :: as, b :: bs =>
      simp only [mergeFuel]
      split
      · simp only [List.mem_cons, ih]
        tauto
      · simp only [List.mem_cons, ih]
        tauto

/-- Sorting preserves membership, any fuel. -/
theorem mem_mergeSortByFuel (le : α → α → Bool) :
    ∀ (fuel : Nat) (l : List α) (x : α), x ∈ mergeSortByFuel le fuel l ↔ x ∈ l := by
  intro fuel
  induction fuel with
  | zero => intro l x; simp [mergeSortByFuel]
  | succ n ih =>
    intro l x
    simp only [mergeSortByFuel]
    split
    · exact Iff.rfl
    · rw [mem_mergeFuel, ih, ih, ← List.mem_append, List.take_append_drop]

/-- Sorting preserves membership. -/
theorem mem_mergeSortBy (le : α → α → Bool) (l : List α) (x : α) :
    x ∈ mergeSortBy le l ↔ x ∈ l :=
  mem_mergeSortByFuel le l.length l x

/-- Contract of `WriteBytes::write_u32`: four little-endian bytes. -/
def writeU32LE (n : Nat) : ByteSeq :=
  [n % 256, n / 256 % 256, n / 65536 % 256, n / 16777216 % 256]

/-- Contract of `WriteBytes::write_string_u8_0terminated`: the path bytes
followed by one zero byte. -/
def writeString0Terminated (path : ByteSeq) : ByteSeq := path ++ [0]

/-- ASCII model of `str::to_lowercase` as used for the path sort key. -/
def byteLower (b : ByteSeq) : ByteSeq :=
  b.map (fun c => if 65 ≤ c ∧ c ≤ 90 then c + 32 else c)

/-- Lexicographic byte-sequence comparison (Rust `Ord` on strings). -/
def bytesLe : ByteSeq → ByteSeq → Bool
  | [], _ => true
  | _ :: _, [] => false
  | a :: as, b :: bs => if a < b then true else if b < a then false else bytesLe as bs

/-- One file of a Pack as the encoder sees it: its path, its optional
timestamp, and the outcome of `file.encode(...)` — the encode step
(resident bytes or lazy re-read, with optional recompression) lives
outside the analysed sources, so it is carried as data. -/
structure EncFile where
  path : ByteSeq
  timestamp : Option Nat
  encodeResult : Except RLibError ByteSeq

/-- The Pack fields `write_pfh4` consumes. -/
structure Pack4 where
  pfh_version_marker : ByteSeq
  bitmask_bits : Nat
  file_type_value : Nat
  hasIndexWithTimestamps : Bool
  timestamp : Nat
  dependencies : List ByteSeq
  files : List EncFile

/-- Contract of rayon's `collect::<Result<Vec<_>>>`: all results, or an
error when any element is an error (the source's parallel collect
guarantees some failing element's error; which one is unspecified, and no
claim depends on it). -/
def collectResults : List (Except ε α) → Except ε (List α)
  | [] => .ok []
  | x :: rest =>
    match x with
    | .error e => .error e
    | .ok a =>
      match collectResults rest with
      | .error e => .error e
      | .ok as => .ok (a :: as)

/-- One file index entry: size, optional timestamp, zero-terminated path
(`5 + path.len()` bytes, or `9 + path.len()` with timestamps). -/
def fileIndexEntry (hasTs : Bool) (f : EncFile) (data : ByteSeq) : ByteSeq :=
  writeU32LE data.length ++ (if hasTs then writeU32LE (f.timestamp.getD 0) else [])
    ++ writeString0Terminated f.path

/-- Embedding of `write_pfh4`: sort the files by lowercased path, encode
every file and build its index entry (collecting the first failure),
build the dependency index and the header in memory, and only then append
header, dependency index, file index and file data to the output buffer.
The output buffer state is returned alongside the result; on any error
the function returns before the first `write_all`, so the buffer comes
back unchanged. -/
def write_pfh4 (p : Pack4) (test_mode : Bool) (now : Nat) (buffer : ByteSeq) :
    (Except RLibError Unit) × ByteSeq :=
  let sorted_files := mergeSortBy (fun a b => bytesLe (byteLower a.path) (byteLower b.path)) p.files
  match collectResults (sorted_files.map (fun f =>
      match f.encodeResult with
      | .error e => .error e
      | .ok data => .ok (fileIndexEntry p.hasIndexWithTimestamps f data, data))) with
  | .error e => (.error e, buffer)
  | .ok pairs =>
    let files_index := (pairs.map Prod.fst).flatten
    let files_data := (pairs.map Prod.snd).flatten
    let dependencies_index := (p.dependencies.map writeString0Terminated).flatten
    let header_timestamp := if test_mode then p.timestamp else now
    let header := p.pfh_version_marker
      ++ writeU32LE (p.bitmask_bits ||| p.file_type_value)
      ++ writeU32LE p.dependencies.length
      ++ writeU32LE dependencies_index.length
      ++ writeU32LE sorted_files.length
      ++ writeU32LE files_index.length
      ++ writeU32LE (header_timestamp % 4294967296)
    (.ok (), buffer ++ header ++ dependencies_index ++ files_index ++ files_data)

/-- If some mapped element fails, the collect fails. -/
theorem collectResults_error (mapF : α → Except ε β) {l : List α} {x : α} {e : ε}
    (hx : x ∈ l) (he : mapF x = .error e) :
    ∃ e2, collectResults (l.map mapF) = .error e2 := by
  induction l with
  | nil => cases hx
  | cons y rest ih =>
    simp only [List.map_cons, collectResults]
    cases hy : mapF y with
    | error e3 => exact ⟨e3, rfl⟩
    | ok a =>
      rcases List.mem_cons.mp hx with hxy | hxrest
      · subst hxy
        rw [hy] at he
        cases he
      · obtain ⟨e2, h2⟩ := ih hxrest
        rw [h2]
        exact ⟨e2, rfl⟩

/-- C4: if the encode step of any single file fails, `write_pfh4` returns
an error and aborts the entire write: the output buffer is exactly as it
was, with no header, index or file-data bytes written. -/
theorem c4_write_pfh4_aborts_whole_write (p : Pack4) (test_mode : Bool) (now : Nat)
    (buffer : ByteSeq) (f : EncFile) (e : RLibError)
    (hf : f ∈ p.files) (he : f.encodeResult = .error e) :
    ∃ e2, write_pfh4 p test_mode now buffer = (.error e2, buffer) := by
  have hmem : f ∈ mergeSortBy (fun a b => bytesLe (byteLower a.path) (byteLower b.path)) p.files :=
    (mem_mergeSortBy _ _ _).mpr hf
  have hmap : (match f.encodeResult with
      | .error e => (.error e : Except RLibError (ByteSeq × ByteSeq))
      | .ok data => .ok (fileIndexEntry p.hasIndexWithTimestamps f data, data)) = .error e := by
    rw [he]
  obtain ⟨e2, hcol⟩ := collectResults_error (fun f =>
      match f.encodeResult with
      | .error e => .error e
      | .ok data => .ok (fileIndexEntry p.hasIndexWithTimestamps f data, data))
    hmem hmap
  refine ⟨e2, ?_⟩
  simp only [write_pfh4]
  rw [hcol]

/-- Pack used by the C4 witness: one healthy file and one whose encode
step fails. -/
def c4Pack : Pack4 :=
  { pfh_version_marker := [80, 70, 72, 52], bitmask_bits := 0, file_type_value := 0,
    hasIndexWithTimestamps := false, timestamp := 0, dependencies := [],
    files := [{ path := [97], timestamp := none, encodeResult := .ok [1, 2, 3] },
              { path := [98], timestamp := none, encodeResult := .error .EncodeFailed }] }

/-- Witness for C4: with the pack above and a nonempty prior buffer, the
write fails and the buffer is untouched. -/
theorem c4_write_pfh4_aborts_whole_write_witness :
    ∃ e2, write_pfh4 c4Pack false 0 [9, 9] = (.error e2, [9, 9]) :=
  c4_write_pfh4_aborts_whole_write c4Pack false 0 [9, 9]
    { path := [98], timestamp := none, encodeResult := .error .EncodeFailed } .EncodeFailed
    (by simp [c4Pack]) rfl

/-- Cells of a decoded table row: the externally supplied Table layer's
`DecodedData`, restricted to the variants the claims exercise.  Modelled
from the spec ("an ordered sequence of tagged values"); `F32` carries the
float's value scaled by `10^4` as an exact integer, so the optimizer's
absolute tolerance of `0.0001` becomes a distance of `1`.  Floating-point
rounding itself is outside the embedding. -/
inductive DecodedData where
  | Boolean (b : Bool)
  | I32 (n : Int)
  | I64 (n : Int)
  | F32 (v : Int)
  | StringU8 (s : String)
  deriving DecidableEq

/-- One table row. -/
abbrev Row := List DecodedData

/-- Modelled from the spec: the Table layer's `data_to_string` gives "the
cell's textual form".  Float rendering is external code; it is modelled
injectively on the scaled value. -/
def data_to_string : DecodedData → String
  | .Boolean b => if b then "true" else "false"
  | .I32 n => toString n
  | .I64 n => toString n
  | .F32 v => toString v
  | .StringU8 s => s

/-- The optimizer's float canonicalisation `format!("{:.4}", value)`;
external formatting, modelled injectively on the scaled value. -/
def formatF4 (v : Int) : String := "f4:" ++ toString v

/-- The optimizer's per-cell canonical form: floats become their
fixed-4-decimal string cell, everything else is unchanged. -/
def canonCell : DecodedData → DecodedData
  | .F32 v => .StringU8 (formatF4 v)
  | d => d

/-- Canonical form of a whole row.  The source then serialises the row
with `serde_json` and compares the JSON strings; since that serialisation
is injective on rows, the embedding compares canonical rows directly. -/
def canonRow (r : Row) : Row := r.map canonCell

/-- Lexicographic comparison of character lists by code point. -/
def charListCmp : List Char → List Char → Ordering
  | [], [] => .eq
  | [], _ :: _ => .lt
  | _ :: _, [] => .gt
  | a :: as, b :: bs =>
    if a.toNat < b.toNat then .lt
    else if b.toNat < a.toNat then .gt
    else charListCmp as bs

/-- Rust `String::partial_cmp` (always `Some`): lexicographic order on the
characters, which for UTF-8 strings agrees with Rust's byte order. -/
def strCmp (a b : String) : Ordering := charListCmp a.data b.data

/-- The DB sort comparator on two cells: when both are floats within
absolute tolerance `0.0001` they compare equal, otherwise the textual
forms are compared lexically (`unwrap_or(Equal)` never fires for strings). -/
def dbCellCmp (a b : DecodedData) : Ordering :=
  match a, b with
  | .F32 x, .F32 y =>
    if (x - y).natAbs ≤ 1 then .eq
    else strCmp (data_to_string (.F32 x)) (data_to_string (.F32 y))
  | _, _ => strCmp (data_to_string a) (data_to_string b)

/-- Boolean form of "not greater" used to drive the stable sort, applied
to the first-key cells of two rows (`a[first_key]`; rows match their
definition, so the index is in bounds — the model totalises with a
default cell). -/
def dbRowLe (firstKey : Nat) (a b : Row) : Bool :=
  match dbCellCmp (a.getD firstKey (.Boolean false)) (b.getD firstKey (.Boolean false)) with
  | .gt => false
  | _ => true

/-- Rust `Vec::dedup`: remove consecutive repeated elements, keeping the
first of each run. -/
def dedupAdjacent [DecidableEq a] : List a → List a
  | [] => []
  | x :: rest => x :: dedupGo x rest
where dedupGo [DecidableEq a] : a → List a → List a
  | _, [] => []
  | prev, x :: rest => if x = prev then dedupGo prev rest else x :: dedupGo x rest

/-- A DB table as the optimizer sees it.  Modelled from the spec: the
Table layer supplies the row data (`self.data`, mutated back with
`set_data`), the all-defaults row (`self.new_row()`) and the index of the
first key-flagged column; all of that is external to the analysed
sources, so it is carried as fields, with row access and `set_data`
total. -/
structure DBTable where
  rows : List Row
  defaultRow : Row
  firstKey : Nat
  deriving DecidableEq

/-- Embedding of `DB::optimize`.  `vanilla` is the outcome of
`dependencies.db_data(...)` merged and flattened to rows (an error there
makes the optimizer a no-op returning `false`).  On success: drop rows
whose canonical form matches a reference row (ITM) or that equal the
canonicalised default row (ITNR), stable-sort by the first key column
with the float-tolerant comparator, dedup adjacent duplicates, store the
rows back and report emptiness. -/
def dbOptimize (t : DBTable) (vanilla : Except Unit (List Row)) : DBTable × Bool :=
  match vanilla with
  | .error _ => (t, false)
  | .ok vanillaRows =>
    let vanilla_table := vanillaRows.map canonRow
    let new_row := canonRow t.defaultRow
    let entries := t.rows.filter
      (fun e => !(vanilla_table.contains (canonRow e)) && !(e == new_row))
    let entries := mergeSortBy (dbRowLe t.firstKey) entries
    let entries := dedupAdjacent entries
    ({ t with rows := entries }, entries.isEmpty)

/-- C3: on the table with rows `[[1,"a"],[2,"b"],[1,"a"]]`, reference rows
`[[2,"b"]]` and default row `[0,""]`, DB optimize leaves exactly the
single row `[1,"a"]` (the reference-identical row and the duplicate are
removed) and returns `false`: the table is not empty. -/
theorem c3_db_optimize_scenario :
    dbOptimize
      { rows := [[.I32 1, .StringU8 "a"], [.I32 2, .StringU8 "b"], [.I32 1, .StringU8 "a"]],
        defaultRow := [.I32 0, .StringU8 ""], firstKey := 0 }
      (.ok [[.I32 2, .StringU8 "b"]]) =
    ({ rows := [[.I32 1, .StringU8 "a"]],
       defaultRow := [.I32 0, .StringU8 ""], firstKey := 0 }, false) := by
  rfl

end Rpfm
